import Mathlib

/-
Verification of the UNO-AI planning stack (actions.py, Transitions.py,
UNOState.py, MCTS.py) against its natural-language specification.

Shallow embedding conventions:
* card strings stay strings ("Blue-5", "Wild-Draw Four"), parsed exactly as
  Python's `split("-", 1)`;
* Python functions that can raise (`ValueError` on a malformed card or a
  card missing from the hand) return `Option`, `none` being the exception;
* Python `int` becomes `Int` (so `%` is `Int.emod`, matching Python's `%`
  on a positive modulus), hand sizes and list lengths become `Nat`;
* calls into `random` (`random.random`, `random.choice`, `random.choices`,
  `random.shuffle`) are modelled by explicit oracle parameters that each
  theorem quantifies over, so every theorem holds for every draw of the
  random source.
-/

namespace UNO

/-- actions.py `VALID_COLORS`. -/
def VALID_COLORS : List String := ["Blue", "Green", "Red", "Yellow"]

/-- Split a character list at the first dash, as Python's `split("-", 1)`
does; `none` when the string has no dash (Python raises `ValueError`). -/
def splitFirstDash : List Char → Option (List Char × List Char)
  | [] => none
  | '-' :: rest => some ([], rest)
  | c :: rest =>
    match splitFirstDash rest with
    | some (a, b) => some (c :: a, b)
    | none => none

/-- actions.py `parse_card` and Transitions.py `_parse_card_string`: parse
"Color-Type" into `(color, type)`; `none` models the `ValueError` raised on a
string without a dash. -/
def parse_card (s : String) : Option (String × String) :=
  match splitFirstDash s.toList with
  | some (a, b) => some (String.mk a, String.mk b)
  | none => none

/-- Transitions.py `ActionType`. -/
inductive ActionType where
  | V_CARD
  | NEXT_COLOR
  | PLUS_N
  | SKIP
  | REVERSE
  | GET_NEW_CARD
  | UNO
deriving DecidableEq, Repr

/-- Transitions.py `UNOState` (frozen dataclass). -/
structure UNOState where
  cur_color : Option String
  cur_dir : Int
  cur_top : Option String
  skip : Bool
  sum_plus : Int
  hand_cards : List String
  opponents_cards_num : List Nat
  belief : List (List String)
  uno : Bool
  current_player : Int := 0
  num_players : Int := 4
deriving DecidableEq, Repr

/-- Transitions.py `UNOAction` (frozen dataclass, optional payloads). -/
structure UNOAction where
  type : ActionType
  card : Option String := none
  next_color : Option String := none
  plus_value : Int := 0
deriving DecidableEq, Repr

/-- Transitions.py `UNOObservation` (frozen dataclass). -/
structure UNOObservation where
  own_hand : List String
  opponent_hand_sizes : List Nat
  cur_top : Option String
  cur_color : Option String
  cur_dir : Int
  skip : Bool
  sum_plus : Int
  uno : Bool
  action_taken : UNOAction
  action_player : Int
  observed_discard_cards : List String
  opponent_drew : Option Int := none
  belief : List (List String) := []
deriving DecidableEq, Repr

/-- Transitions.py `_next_player_index`: `(current + direction) % num_players`.
Python's `%` with a positive modulus agrees with `Int.emod`. -/
def _next_player_index (current direction num_players : Int) : Int :=
  (current + direction) % num_players

/-- Transitions.py `_remove_card`: drop the first occurrence of `card`;
`none` models the `ValueError` when the card is absent. -/
def _remove_card : List String → String → Option (List String)
  | [], _ => none
  | c :: rest, card =>
    if c = card then some rest
    else (_remove_card rest card).map (fun t => c :: t)

/-- Transitions.py `transition`: apply an action to a state. `none` models
every `ValueError` branch (missing payload, card not in hand, bad plus value,
malformed card string). -/
def transition (state : UNOState) (action : UNOAction) : Option UNOState :=
  match action.type with
  | .V_CARD =>
    match action.card with
    | none => none
    | some card =>
      match _remove_card state.hand_cards card, parse_card card with
      | some new_hand, some (card_color, card_type) =>
        let s1 : UNOState := { state with cur_top := some card, hand_cards := new_hand }
        let s2 : UNOState :=
          if card_color ≠ "Wild" then { s1 with cur_color := some card_color } else s1
        let s3 : UNOState :=
          if card_type = "Skip" then
            { s2 with
              skip := true
              current_player :=
                _next_player_index state.current_player state.cur_dir state.num_players }
          else if card_type = "Reverse" then
            let new_dir := -state.cur_dir
            if state.num_players = 2 then
              { s2 with
                cur_dir := new_dir
                skip := true
                current_player :=
                  _next_player_index state.current_player new_dir state.num_players }
            else
              { s2 with cur_dir := new_dir }
          else if card_type = "Draw Two" then { s2 with sum_plus := state.sum_plus + 2 }
          else if card_type = "Draw Four" then { s2 with sum_plus := state.sum_plus + 4 }
          else s2
        let s4 : UNOState :=
          if card_type ≠ "Skip" ∧ card_type ≠ "Reverse" then
            { s3 with current_player :=
                _next_player_index state.current_player s3.cur_dir state.num_players }
          else if card_type = "Reverse" ∧ state.num_players > 2 then
            { s3 with current_player :=
                _next_player_index state.current_player s3.cur_dir state.num_players }
          else s3
        some s4
      | _, _ => none
  | .NEXT_COLOR =>
    match action.next_color with
    | none => none
    | some col => some { state with cur_color := some col }
  | .PLUS_N =>
    if action.plus_value = 2 ∨ action.plus_value = 4 then
      some { state with sum_plus := state.sum_plus + action.plus_value }
    else none
  | .SKIP =>
    some { state with
      skip := true
      current_player :=
        _next_player_index state.current_player state.cur_dir state.num_players }
  | .REVERSE =>
    let new_dir := -state.cur_dir
    if state.num_players = 2 then
      some { state with
        cur_dir := new_dir
        skip := true
        current_player :=
          _next_player_index state.current_player new_dir state.num_players }
    else some { state with cur_dir := new_dir }
  | .GET_NEW_CARD =>
    match action.card with
    | none => none
    | some card => some { state with hand_cards := state.hand_cards ++ [card] }
  | .UNO => some { state with uno := true }

/-- The loop body of actions.py `_has_color_match`: walk the hand, parsing
every card (each parse can raise) until one matches `col`. -/
def _has_color_match_go (col : String) : List String → Option Bool
  | [] => some false
  | c :: rest =>
    match parse_card c with
    | none => none
    | some (card_color, _) =>
      if card_color = col then some true else _has_color_match_go col rest

/-- actions.py `_has_color_match`: does the hand hold a card of this color?
`color = none` (Python `None`) answers `false` without touching the hand. -/
def _has_color_match (hand_cards : List String) (color : Option String) : Option Bool :=
  match color with
  | none => some false
  | some col => _has_color_match_go col hand_cards

/-- actions.py `is_card_playable`: color match, type match against the top
card, or a wild card; Wild-Draw Four only with no color match in the hand.
`none` models a `ValueError` from parsing a malformed card string. -/
def is_card_playable (card_str : String) (state : UNOState) : Option Bool :=
  match state.cur_top with
  | none => some false
  | some top =>
    match parse_card card_str, parse_card top with
    | some (card_color, card_type), some (_, top_type) =>
      if card_color = "Wild" then
        if card_type = "Draw Four" then
          (_has_color_match state.hand_cards state.cur_color).map (fun b => !b)
        else some true
      else if some card_color = state.cur_color then some true
      else if card_type = top_type then some true
      else some false
    | _, _ => none

/-- The playable-card loop of actions.py `get_legal_actions`: collect the
hand cards `is_card_playable` accepts, propagating its exceptions. -/
def playableCards (state : UNOState) : List String → Option (List String)
  | [] => some []
  | c :: rest => do
    let b ← is_card_playable c state
    let tail ← playableCards state rest
    pure (if b then c :: tail else tail)

/-- actions.py `get_legal_actions`: a `V_CARD` action per playable card; a
`GET_NEW_CARD` action (with the given draw candidates, or one unknown draw)
when nothing is playable; an `UNO` action at hand size one. -/
def get_legal_actions (state : UNOState)
    (available_draw_cards : Option (List String)) : Option (List UNOAction) := do
  let playable ← playableCards state state.hand_cards
  let acts := playable.map
    (fun c => ({ type := ActionType.V_CARD, card := some c } : UNOAction))
  let acts :=
    if playable.length = 0 then
      match available_draw_cards with
      | some cards =>
        acts ++ cards.map
          (fun c => ({ type := ActionType.GET_NEW_CARD, card := some c } : UNOAction))
      | none => acts ++ [({ type := ActionType.GET_NEW_CARD, card := none } : UNOAction)]
    else acts
  let acts :=
    if state.hand_cards.length = 1 ∧ state.uno = false then
      acts ++ [({ type := ActionType.UNO } : UNOAction)]
    else acts
  pure acts

/-- MCTS.py `TreeNode.is_terminal`: a state is terminal when
`get_legal_actions` (called with no draw candidates) returns an empty list;
the Python `is None` test never fires since the function returns a list. -/
def is_terminal (state : UNOState) : Option Bool :=
  match get_legal_actions state none with
  | none => none
  | some l => some (l.length = 0)

/-- The per-color cards of UNOState.py `get_all_uno_cards`: one zero, two of
each of 1-9, Skip, Draw Two, Reverse. -/
def colorCards (color : String) : List String :=
  (color ++ "-0") ::
    (["1", "2", "3", "4", "5", "6", "7", "8", "9", "Skip", "Draw Two", "Reverse"].map
      (fun t => [color ++ "-" ++ t, color ++ "-" ++ t])).flatten

/-- UNOState.py `get_all_uno_cards`: the 108-card UNO deck as strings. -/
def get_all_uno_cards : List String :=
  (["Blue", "Green", "Red", "Yellow"].map colorCards).flatten
    ++ (List.replicate 4 ["Wild-Wild", "Wild-Draw Four"]).flatten

/-- The known-card removal loop of `initialize_belief_particles`: for each
known card, delete one instance from the deck if present (Python
`if card in deck_copy: deck_copy.remove(card)`). -/
def removeKnownCards (deck : List String) (known : List String) : List String :=
  known.foldl (fun d c => if c ∈ d then d.erase c else d) deck

/-- The padding loop of `initialize_belief_particles`: while the deck is
short of `total` cards, draw a candidate from the full deck (`cand k` gives
the random index) and append it unless it is a known card.  The Python loop
is unbounded (it retries until a non-known candidate shows up, and diverges
if none exists); `fuel` bounds the number of loop iterations modelled. -/
def padDeck (cand : Nat → Nat) (known : List String) (total : Nat) :
    Nat → Nat → List String → List String
  | 0, _, deck => deck
  | fuel + 1, k, deck =>
    if deck.length < total then
      let c := get_all_uno_cards.getD (cand k % get_all_uno_cards.length) ""
      padDeck cand known total fuel (k + 1) (if c ∈ known then deck else deck ++ [c])
    else deck

/-- The dealing loop of `initialize_belief_particles`: slice consecutive
segments of the shuffled deck into one hand per opponent (Python slices
truncate silently, as `List.take` does). -/
def dealHands : List String → List Nat → List (List String)
  | _, [] => []
  | deck, n :: rest => deck.take n :: dealHands (deck.drop n) rest

/-- UNOState.py `initialize_belief_particles`: build `num_particles`
hypotheses of the opponents' hands by removing the known cards (own hand and
observed discards) from the full deck, shuffling, padding if short, and
dealing hands of the required sizes.  `shuffle i` stands for the
`random.shuffle` permutation used for particle `i`, and `cand i` for its
`random.choice` indices in the padding loop. -/
def initialize_belief_particles (shuffle : Nat → List String → List String)
    (cand : Nat → Nat → Nat) (padFuel : Nat)
    (player_0_hand : List String) (opponents_cards_num : List Nat)
    (observed_discard_cards : List String) (num_particles : Nat) :
    List (List (List String)) :=
  let all_cards := get_all_uno_cards
  let known_cards := player_0_hand ++ observed_discard_cards
  (List.range num_particles).map (fun i =>
    let deck0 := removeKnownCards all_cards known_cards
    let deck1 := shuffle i deck0
    let total := opponents_cards_num.sum
    let deck2 :=
      if deck1.length < total then padDeck (cand i) known_cards total padFuel 0 deck1
      else deck1
    dealHands deck2 opponents_cards_num)

/-- The particle-validity filter of UNOState.py `update_belief_state`
(its checks 1 and 2): the particle's hand sizes must match
`opponents_cards_num`, and if the observed action is a card play by an
opponent (`action_player > 0`) whose opponent index lies inside the particle,
that opponent's hypothesized hand must contain the played card (a `V_CARD`
with no card payload matches Python's `None not in hand`, which is always
true, so the particle is dropped). -/
def particleValid (obs : UNOObservation) (opponents_cards_num : List Nat)
    (particle : List (List String)) : Bool :=
  (particle.length == opponents_cards_num.length
      && (particle.zip opponents_cards_num).all (fun p => p.1.length == p.2))
    &&
  (if obs.action_taken.type = ActionType.V_CARD ∧ obs.action_player > 0 then
    (let opponent_idx := (obs.action_player - 1).toNat
     if opponent_idx < particle.length then
       match obs.action_taken.card with
       | some played => played ∈ particle.getD opponent_idx []
       | none => false
     else true)
  else true)

/-- The card-removal map of UNOState.py `update_belief_state` (its lines
381-390): in the hand at position `opponent_idx`, keep only the cards
different from the played card — note this removes EVERY instance of the
played card, not one —, leaving all other hands unchanged.  `i` is the
running index of Python's `enumerate`. -/
def removePlayedHands (played : Option String) (opponent_idx : Nat) :
    Nat → List (List String) → List (List String)
  | _, [] => []
  | i, hand :: rest =>
    (if i = opponent_idx then hand.filter (fun c => !(some c == played)) else hand)
      :: removePlayedHands played opponent_idx (i + 1) rest

/-- The survivor stage of UNOState.py `update_belief_state` (lines 344-390):
the particles passing `particleValid`, with the played card removed from the
acting opponent's hypothesized hand after an opponent's card play. -/
def survivingParticles (obs : UNOObservation) (opponents_cards_num : List Nat)
    (particles : List (List (List String))) : List (List (List String)) :=
  let filtered := particles.filter (particleValid obs opponents_cards_num)
  if obs.action_taken.type = ActionType.V_CARD ∧ obs.action_player > 0 then
    filtered.map (removePlayedHands obs.action_taken.card (obs.action_player - 1).toNat 0)
  else filtered

/-- UNOState.py `update_belief_state`: on an empty belief, reinitialize with
100 particles; otherwise filter the particles by `particleValid`, remove the
played card from the filtered particles after an opponent's card play, and if
fewer than 30% of the input count survives, resample with replacement from
the survivors (`pick i` is the `random.choices` index for slot `i`) back to
the input count, or reinitialize from scratch at the input count when none
survive.  Python's float test `len(updated) < len(current) * 0.3` agrees with
`10 * len(updated) < 3 * len(current)` for every list length below 2^50
(the rounding error of `0.3` and of the product is far too small to move the
product past an integer, and `n * 0.3` rounds to exactly `3n/10` when
`10 ∣ n`), so the threshold is stated over naturals. -/
def update_belief_state (pick : Nat → Nat)
    (shuffle : Nat → List String → List String) (cand : Nat → Nat → Nat)
    (padFuel : Nat) (current_belief_particles : List (List (List String)))
    (obs : UNOObservation) (player_0_hand : List String)
    (opponents_cards_num : List Nat) : List (List (List String)) :=
  if current_belief_particles = [] then
    initialize_belief_particles shuffle cand padFuel player_0_hand opponents_cards_num
      obs.observed_discard_cards 100
  else
    let updated := survivingParticles obs opponents_cards_num current_belief_particles
    if updated.length * 10 < current_belief_particles.length * 3 then
      if updated ≠ [] then
        (List.range current_belief_particles.length).map
          (fun i => updated.getD (pick i % updated.length) [])
      else
        initialize_belief_particles shuffle cand padFuel player_0_hand
          opponents_cards_num obs.observed_discard_cards
          current_belief_particles.length
    else updated

/-- MCTS.py `TreeNode`, as the tree of statistics the search mutates: the
node's game state, the action that led to it (`none` for the root), the visit
count, the accumulated discounted score (a rational standing for the Python
float) and the owned children.  `untried_actions` and the belief particles
attached to a node play no part in the claims about the statistics. -/
inductive Tree where
  | node (state : UNOState) (action : Option UNOAction) (visits : Nat) (score : ℚ)
      (children : List Tree)

/-- The `visits` field of a `TreeNode`. -/
def Tree.visits : Tree → Nat
  | .node _ _ v _ _ => v

/-- The `score` field of a `TreeNode`. -/
def Tree.score : Tree → ℚ
  | .node _ _ _ s _ => s

/-- The `children` field of a `TreeNode`. -/
def Tree.children : Tree → List Tree
  | .node _ _ _ _ cs => cs

/-- The `action` field of a `TreeNode` (`none` for the root). -/
def Tree.action : Tree → Option UNOAction
  | .node _ a _ _ _ => a

/-- The UCB1 value MCTS.py `TreeNode.best_child` computes for one child,
valued in `WithBot (WithTop ℚ)` so that the loop's initial `-inf` (`⊥`) and
the zero-visit score `+inf` (`↑⊤`) live in one linear order: a child with
zero visits scores `+inf`; a visited child's finite
`score/visits + c_param * sqrt (log self.visits / child.visits)` float is
abstracted as the parameter `f child`, since every claim about `best_child`
holds for every finite value of that formula. -/
def ucb_score (f : Tree → ℚ) (child : Tree) : WithBot (WithTop ℚ) :=
  if child.visits = 0 then ((⊤ : WithTop ℚ) : WithBot (WithTop ℚ))
  else (((f child : ℚ) : WithTop ℚ) : WithBot (WithTop ℚ))

/-- The selection loop of MCTS.py `TreeNode.best_child`: walk the children,
replacing the best when a child's score strictly exceeds `best_score`
(which starts at `-inf`), so ties keep the first-encountered child. -/
def best_child_loop (f : Tree → ℚ) :
    WithBot (WithTop ℚ) → Option Tree → List Tree → Option Tree
  | _, best, [] => best
  | best_score, best, child :: rest =>
    if best_score < ucb_score f child then
      best_child_loop f (ucb_score f child) (some child) rest
    else best_child_loop f best_score best rest

/-- MCTS.py `TreeNode.best_child`: the child with the highest UCB1 value. -/
def best_child (f : Tree → ℚ) (node : Tree) : Option Tree :=
  best_child_loop f ⊥ none node.children

/-- The action-selection loop closing MCTS.py `MCTS.search` (lines 229-240):
`best_visits` starts at `-1` and each child with strictly more visits
replaces the incumbent, so ties keep the first-encountered child. -/
def search_best_loop : Int → Option Tree → List Tree → Option Tree
  | _, best, [] => best
  | best_visits, best, child :: rest =>
    if best_visits < (child.visits : Int) then
      search_best_loop (child.visits : Int) (some child) rest
    else search_best_loop best_visits best rest

/-- What MCTS.py `MCTS.search` returns once its simulations are done: the
most-visited root child's action, or `none` (Python `None`) when the root has
no children. -/
def search_result (root_children : List Tree) : Option UNOAction :=
  match search_best_loop (-1) none root_children with
  | none => none
  | some best => best.action

/-- The greatest visit count among a list of children (`0` for no children):
the specification value `search_result` is checked against. -/
def maxVisits (cs : List Tree) : Nat :=
  cs.foldr (fun c m => max c.visits m) 0

/-- Apply `f` to the element at index `i`, leaving the list unchanged when
`i` is out of range: the arena operation the index-path tree updates use. -/
def modifyAt (f : α → α) : Nat → List α → List α
  | _, [] => []
  | 0, a :: as => f a :: as
  | n + 1, a :: as => a :: modifyAt f n as

/-- MCTS.py `MCTS.backpropagate`, addressed by the root-to-node child-index
path instead of the Python parent pointers: every node on the path gains one
visit, and the node standing `d` steps above the acted-on node gains
`reward * gamma ^ d` score (Python walks upward multiplying `discount` by
`gamma` at each step). -/
def backpropagate (gamma reward : ℚ) : List Nat → Tree → Tree
  | [], .node st a v s cs => .node st a (v + 1) (s + reward) cs
  | i :: p, .node st a v s cs =>
    .node st a (v + 1) (s + reward * gamma ^ (p.length + 1))
      (modifyAt (backpropagate gamma reward p) i cs)

/-- MCTS.py `TreeNode.expand`, seen from the root: expanding the node at
`path` appends to its children one fresh node — zero visits, zero score, no
children — holding the transition's resulting state and the popped action. -/
def expandAt (st : UNOState) (a : UNOAction) : List Nat → Tree → Tree
  | [], .node s act v sc cs => .node s act v sc (cs ++ [Tree.node st (some a) 0 0 []])
  | i :: p, .node s act v sc cs => .node s act v sc (modifyAt (expandAt st a p) i cs)

/-- Whether a child-index path addresses a node of the tree. -/
def validPath : List Nat → Tree → Bool
  | [], _ => true
  | i :: p, .node _ _ _ _ cs =>
    match cs[i]? with
    | some t => validPath p t
    | none => false

/-- One simulation of MCTS.py `MCTS.search`, as it affects the tree:
selection walks down without changing statistics; expansion (when it
happens) creates one fresh child somewhere; the rollout produces a reward;
and backpropagation runs along the root-to-node path `bp_path` ending at the
node the simulation acted on — `[]` when the simulation never left the root
(a terminal or childless fully-expanded root).  Which node selection
reaches, whether expansion fires, and the random rollout's reward are the
simulation's data, universally quantified in the theorems. -/
structure SimStep where
  expansion : Option (List Nat × UNOState × UNOAction)
  bp_path : List Nat
  reward : ℚ

/-- The tree after a `SimStep`'s expansion, before its backpropagation. -/
def afterExpansion (t : Tree) (step : SimStep) : Tree :=
  match step.expansion with
  | some (p, st, a) => expandAt st a p t
  | none => t

/-- The tree after one full simulation of `MCTS.search`. -/
def runSim (gamma : ℚ) (t : Tree) (step : SimStep) : Tree :=
  backpropagate gamma step.reward step.bp_path (afterExpansion t step)

/-- The tree after the whole simulation loop of `MCTS.search`. -/
def runSearch (gamma : ℚ) : Tree → List SimStep → Tree
  | t, [] => t
  | t, s :: rest => runSearch gamma (runSim gamma t s) rest

/-- A simulation trace is valid when each step's backpropagation path
addresses a node of the tree as it stands after that step's expansion —
Python's backpropagation always walks genuine parent pointers, so every
actual run satisfies this. -/
def validRun (gamma : ℚ) : Tree → List SimStep → Bool
  | _, [] => true
  | t, s :: rest => validPath s.bp_path (afterExpansion t s) && validRun gamma (runSim gamma t s) rest

/-- The sum of the root's children's visit counts. -/
def rootChildVisitSum (t : Tree) : Nat :=
  (t.children.map Tree.visits).sum

/-- MCTS.py `MCTS._simulate_draw_card`: a random color-type pair formatted as
a card string; `ci` and `ti` stand for the two `random.choice` indices. -/
def _simulate_draw_card (ci ti : Nat) : String :=
  (["Blue", "Green", "Red", "Yellow", "Wild"].getD (ci % 5) "") ++ "-" ++
    (["0", "1", "2", "3", "4", "5", "6", "7", "8", "9", "Skip", "Draw Two",
      "Reverse", "Wild", "Draw Four"].getD (ti % 15) "")

/-- The playable-card loop opening MCTS.py
`MCTS._simulate_opponent_turn_with_belief`: collect the cards of the sampled
opponent hand that `is_card_playable` accepts against the current state
(note: against `state`, whose `hand_cards` are still the agent's own),
propagating `is_card_playable`'s exceptions. -/
def opponentPlayable (state : UNOState) : List String → Option (List String)
  | [] => some []
  | c :: rest => do
    let b ← is_card_playable c state
    let tail ← opponentPlayable state rest
    pure (if b then c :: tail else tail)

/-- MCTS.py `MCTS._simulate_opponent_turn_with_belief`: simulate an
opponent's turn on their sampled hand.  `playRoll` is `random.random() < 0.8`,
`pickIdx` the `random.choice` index among the playable cards, `colorIdx` the
random wild-color index, `ci`/`ti` the draw-card indices.  In the play
branch the opponent's hand is swapped into `hand_cards` for the transition
and the agent's own hand restored afterwards (twice when a wild card also
chooses a color), and the opponent's hand size is decremented; in the draw
branch the same swap-restore happens around a `GET_NEW_CARD` transition and
the size is incremented.  Returns `(new_state, played_card, action)`. -/
def _simulate_opponent_turn_with_belief (playRoll : Bool)
    (pickIdx colorIdx ci ti : Nat) (state : UNOState)
    (opponent_hand : List String) (opponent_idx : Nat) :
    Option (UNOState × Option String × UNOAction) := do
  let playable ← opponentPlayable state opponent_hand
  if playable ≠ [] ∧ playRoll then
    let played := playable.getD (pickIdx % playable.length) ""
    let temp_state := { state with hand_cards := opponent_hand }
    let action : UNOAction := { type := ActionType.V_CARD, card := some played }
    let new1 ← transition temp_state action
    let new2 := { new1 with hand_cards := state.hand_cards }
    let pc ← parse_card played
    let new3 ←
      if pc.1 = "Wild" then do
        let color_action : UNOAction :=
          { type := ActionType.NEXT_COLOR,
            next_color := some (["Blue", "Green", "Red", "Yellow"].getD (colorIdx % 4) "") }
        let s ← transition new2 color_action
        pure { s with hand_cards := state.hand_cards }
      else pure new2
    let sizes := new3.opponents_cards_num
    let sizes :=
      if opponent_idx < sizes.length ∧ 0 < sizes.getD opponent_idx 0 then
        sizes.set opponent_idx (sizes.getD opponent_idx 0 - 1)
      else sizes
    pure ({ new3 with opponents_cards_num := sizes }, some played, action)
  else
    let drawn := _simulate_draw_card ci ti
    let action : UNOAction := { type := ActionType.GET_NEW_CARD, card := some drawn }
    let temp_state := { state with hand_cards := opponent_hand }
    let new1 ← transition temp_state action
    let new2 := { new1 with hand_cards := state.hand_cards }
    let sizes := new2.opponents_cards_num
    let sizes :=
      if opponent_idx < sizes.length then
        sizes.set opponent_idx (sizes.getD opponent_idx 0 + 1)
      else sizes
    pure ({ new2 with opponents_cards_num := sizes }, none, action)

/-- The concrete scenario state of spec §8 (also the `__main__` example of
actions.py): hand (Blue-7, Red-5, Wild-Wild, Green-Skip), top card Blue-5,
current color Blue, opponent hand sizes (7, 7, 7). -/
def exampleState : UNOState :=
  { cur_color := some "Blue", cur_dir := 1, cur_top := some "Blue-5", skip := false,
    sum_plus := 0, hand_cards := ["Blue-7", "Red-5", "Wild-Wild", "Green-Skip"],
    opponents_cards_num := [7, 7, 7], belief := [[], [], []], uno := false }

/-- The concrete scenario state of spec §8 for the Skip card: a 4-player
clockwise state with current_player = 1 holding Red-Skip. -/
def skipScenarioState : UNOState :=
  { cur_color := some "Red", cur_dir := 1, cur_top := some "Red-3", skip := false,
    sum_plus := 0, hand_cards := ["Red-Skip"], opponents_cards_num := [7, 7, 7],
    belief := [[], [], []], uno := false, current_player := 1, num_players := 4 }

/-- A reachable state with no top card: `game_state_to_uno_state` produces
`cur_top = None` from an empty discard pile.  The hand is empty, so no hand
card matches the current color. -/
def noTopState : UNOState :=
  { cur_color := some "Blue", cur_dir := 1, cur_top := none, skip := false,
    sum_plus := 0, hand_cards := [], opponents_cards_num := [7, 7, 7],
    belief := [[], [], []], uno := false }

/-- An observation in which opponent 0 (action_player = 1) plays Blue-7. -/
def playBlue7Obs : UNOObservation :=
  { own_hand := [], opponent_hand_sizes := [2], cur_top := some "Blue-7",
    cur_color := some "Blue", cur_dir := 1, skip := false, sum_plus := 0,
    uno := false, action_taken := { type := ActionType.V_CARD, card := some "Blue-7" },
    action_player := 1, observed_discard_cards := [] }

end UNO

namespace UNO

/-- C1, counterexample.  In the scenario state (hand Blue-7, Red-5,
Wild-Wild, Green-Skip; top Blue-5; color Blue) the claim says the play
actions are exactly {Blue-7, Wild-Wild}, excluding Red-5 — but Red-5 is
playable (its type "5" matches the top card Blue-5's type, the second clause
of `is_card_playable`), and `get_legal_actions` lists its play action. -/
theorem c1_red5_is_playable_counterexample :
    is_card_playable "Red-5" exampleState = some true ∧
    get_legal_actions exampleState none =
      some [⟨ActionType.V_CARD, some "Blue-7", none, 0⟩,
            ⟨ActionType.V_CARD, some "Red-5", none, 0⟩,
            ⟨ActionType.V_CARD, some "Wild-Wild", none, 0⟩] := by
  decide

/-- C1 (amended): in the scenario state `get_legal_actions` returns
play-card actions for exactly the set {Blue-7, Red-5, Wild-Wild} — Blue-7 by
color match, Red-5 by type match with the top card, Wild-Wild as a wild —
excluding Green-Skip; `is_card_playable` holds there for exactly these
three cards and fails for Green-Skip. -/
theorem c1_legal_actions_exact :
    get_legal_actions exampleState none =
      some [⟨ActionType.V_CARD, some "Blue-7", none, 0⟩,
            ⟨ActionType.V_CARD, some "Red-5", none, 0⟩,
            ⟨ActionType.V_CARD, some "Wild-Wild", none, 0⟩] ∧
    is_card_playable "Blue-7" exampleState = some true ∧
    is_card_playable "Red-5" exampleState = some true ∧
    is_card_playable "Wild-Wild" exampleState = some true ∧
    is_card_playable "Green-Skip" exampleState = some false := by
  decide

/-- C2: playing Red-Skip from the 4-player clockwise state with
current_player = 1.  The claim (with spec §4.3 and the comment in
Transitions.py, "Skip next player: advance to player after next") demands
current_player = 3; the code computes `_next_player_index` once, landing on
current_player = 2 — the very player a Skip should skip — and raises the
`skip` flag, which no consumer of `transition` in the planning stack reads. -/
theorem c2_skip_advances_once :
    transition skipScenarioState ⟨ActionType.V_CARD, some "Red-Skip", none, 0⟩ =
      some { skipScenarioState with
             cur_top := some "Red-Skip"
             hand_cards := []
             skip := true
             current_player := 2 } := by
  decide

/-- C3, counterexample.  One particle gives opponent 0 the hand
(Blue-7, Blue-7), matching the expected size 2; after the observation that
opponent 0 played Blue-7, the claim demands the surviving particle keep
exactly one Blue-7, but `update_belief_state` strips the hand to [] — the
removal `c != played_card` drops every copy, not one. -/
theorem c3_removes_all_copies_counterexample :
    update_belief_state (fun _ => 0) (fun _ d => d) (fun _ _ => 0) 0
        [[["Blue-7", "Blue-7"]]] playBlue7Obs [] [2] = [[[]]] ∧
    ¬ (([] : List String).count "Blue-7"
        = (["Blue-7", "Blue-7"].count "Blue-7") - 1) := by
  decide

/-- C6, counterexample.  `noTopState` has no top card and an empty hand: no
hand card has a color equal to the current active color, yet
`is_card_playable` answers `false` for Wild-Draw Four (its first guard
returns `False` whenever `cur_top` is `None`), so the claimed equivalence
fails on such states. -/
theorem c6_no_top_card_counterexample :
    is_card_playable "Wild-Draw Four" noTopState = some false ∧
    noTopState.hand_cards = [] ∧
    _has_color_match noTopState.hand_cards noTopState.cur_color = some false := by
  decide

/-- On a hand whose cards all parse, `_has_color_match_go` computes exactly
"some card's color equals `col`". -/
lemma _has_color_match_go_spec (col : String) (l : List String)
    (h : ∀ c ∈ l, (parse_card c).isSome) :
    _has_color_match_go col l =
      some (l.any (fun c => (parse_card c).map Prod.fst == some col)) := by
  induction l with
  | nil => simp [_has_color_match_go]
  | cons c rest ih =>
    obtain ⟨⟨cc, ct⟩, hc⟩ := Option.isSome_iff_exists.mp (h c (List.mem_cons_self c rest))
    have ih' := ih (fun x hx => h x (List.mem_cons_of_mem c hx))
    by_cases hcc : cc = col
    · subst hcc
      simp [_has_color_match_go, hc]
    · simp [_has_color_match_go, hc, hcc, ih']

/-- C6 (amended): for every state that has a top card — when `cur_top` is
`None` nothing is playable — and whose hand cards parse, Wild-Draw Four is
playable exactly when no card in the acting hand has a color equal to the
current active color; the restriction reads the hand's colors, not any
history. -/
theorem c6_wild_draw_four_iff (st : UNOState) (top : String)
    (htop : st.cur_top = some top) (htp : (parse_card top).isSome)
    (hhand : ∀ c ∈ st.hand_cards, (parse_card c).isSome) :
    (∃ b, is_card_playable "Wild-Draw Four" st = some b) ∧
    (is_card_playable "Wild-Draw Four" st = some true ↔
      ∀ c ∈ st.hand_cards, ∀ col ty, parse_card c = some (col, ty) →
        st.cur_color ≠ some col) := by
  obtain ⟨⟨tc, tt⟩, htp'⟩ := Option.isSome_iff_exists.mp htp
  have hwd : parse_card "Wild-Draw Four" = some ("Wild", "Draw Four") := by decide
  have hplay : is_card_playable "Wild-Draw Four" st =
      (_has_color_match st.hand_cards st.cur_color).map (fun b => !b) := by
    unfold is_card_playable
    rw [htop]
    dsimp only
    rw [hwd, htp']
    rfl
  cases hcol : st.cur_color with
  | none =>
    rw [hcol] at hplay
    simp only [_has_color_match, Option.map_some'] at hplay
    refine ⟨⟨true, by rw [hplay]; rfl⟩, ?_, fun _ => by rw [hplay]; rfl⟩
    intro _ c _ col ty _ hne
    exact Option.noConfusion hne
  | some col0 =>
    rw [hcol] at hplay
    simp only [_has_color_match] at hplay
    rw [_has_color_match_go_spec col0 st.hand_cards hhand] at hplay
    simp only [Option.map_some'] at hplay
    refine ⟨⟨_, hplay⟩, ?_, ?_⟩
    · intro htrue c hc col ty hparse
      rw [hplay] at htrue
      have hnot : (!(st.hand_cards.any
          fun c => (parse_card c).map Prod.fst == some col0)) = true :=
        Option.some_inj.mp htrue
      have hanyf : (st.hand_cards.any
          fun c => (parse_card c).map Prod.fst == some col0) = false := by
        cases hv : (st.hand_cards.any
            fun c => (parse_card c).map Prod.fst == some col0)
        · rfl
        · rw [hv] at hnot
          exact absurd hnot (by decide)
      intro heq
      have hcceq : col0 = col := Option.some_inj.mp heq
      have hfalse := List.any_eq_false.mp hanyf c hc
      rw [hparse] at hfalse
      apply hfalse
      simp only [Option.map_some', beq_iff_eq, Option.some_inj]
      exact hcceq.symm
    · intro hall
      rw [hplay]
      have hanyf : (st.hand_cards.any
          fun c => (parse_card c).map Prod.fst == some col0) = false := by
        rw [List.any_eq_false]
        intro c hc
        obtain ⟨⟨cc, ct⟩, hcp⟩ := Option.isSome_iff_exists.mp (hhand c hc)
        rw [hcp]
        simp only [Option.map_some', beq_iff_eq, Option.some_inj]
        intro hcc
        exact hall c hc cc ct hcp (congrArg some hcc.symm)
      rw [hanyf]
      rfl

/-- A state exercising the amended C6 equivalence positively: top Blue-5,
color Blue, hand (Red-2) — no hand card is Blue. -/
def c6WitnessState : UNOState :=
  { cur_color := some "Blue", cur_dir := 1, cur_top := some "Blue-5", skip := false,
    sum_plus := 0, hand_cards := ["Red-2"], opponents_cards_num := [7, 7, 7],
    belief := [[], [], []], uno := false }

/-- C6, witness: the amended equivalence at the concrete state with top
Blue-5, color Blue and hand (Red-2): no hand card matches Blue, so
Wild-Draw Four comes out playable. -/
theorem c6_wild_draw_four_iff_witness :
    is_card_playable "Wild-Draw Four" c6WitnessState = some true := by
  have h := c6_wild_draw_four_iff c6WitnessState "Blue-5" rfl (by decide) (by decide)
  apply h.2.mpr
  intro c hc col ty hparse
  have hc2 : c ∈ (["Red-2"] : List String) := hc
  have hc' : c = "Red-2" := List.mem_singleton.mp hc2
  subst hc'
  have hr : parse_card "Red-2" = some ("Red", "2") := by decide
  rw [hr] at hparse
  have hpair : ("Red", "2") = (col, ty) := Option.some_inj.mp hparse
  have hcol' : col = "Red" := (congrArg Prod.fst hpair).symm
  subst hcol'
  decide

/-- Under parseable hand cards, `_has_color_match` always answers. -/
lemma _has_color_match_isSome (hand : List String) (color : Option String)
    (h : ∀ c ∈ hand, (parse_card c).isSome) :
    (_has_color_match hand color).isSome := by
  cases color with
  | none => simp [_has_color_match]
  | some col =>
    simp only [_has_color_match]
    rw [_has_color_match_go_spec col hand h]
    simp

/-- A parseable card is decidably playable in any state whose top card (when
present) and hand cards parse: no exception escapes `is_card_playable`. -/
lemma is_card_playable_isSome (c : String) (st : UNOState)
    (hc : (parse_card c).isSome)
    (htop : ∀ t, st.cur_top = some t → (parse_card t).isSome)
    (hhand : ∀ x ∈ st.hand_cards, (parse_card x).isSome) :
    (is_card_playable c st).isSome := by
  unfold is_card_playable
  cases ht : st.cur_top with
  | none => simp
  | some top =>
    obtain ⟨⟨cc, ct⟩, hc'⟩ := Option.isSome_iff_exists.mp hc
    obtain ⟨⟨tc2, tt2⟩, ht'⟩ := Option.isSome_iff_exists.mp (htop top ht)
    dsimp only
    rw [hc', ht']
    dsimp only
    by_cases h1 : cc = "Wild"
    · rw [if_pos h1]
      by_cases h2 : ct = "Draw Four"
      · rw [if_pos h2]
        obtain ⟨b, hb⟩ := Option.isSome_iff_exists.mp
          (_has_color_match_isSome st.hand_cards st.cur_color hhand)
        rw [hb]
        simp
      · rw [if_neg h2]
        simp
    · rw [if_neg h1]
      by_cases h2 : some cc = st.cur_color
      · rw [if_pos h2]
        simp
      · rw [if_neg h2]
        by_cases h3 : ct = tt2
        · rw [if_pos h3]
          simp
        · rw [if_neg h3]
          simp

/-- Under parseable cards, the playable-card loop of `get_legal_actions`
never raises. -/
lemma playableCards_isSome (st : UNOState)
    (htop : ∀ t, st.cur_top = some t → (parse_card t).isSome)
    (hhand : ∀ x ∈ st.hand_cards, (parse_card x).isSome) :
    ∀ l, (∀ c ∈ l, (parse_card c).isSome) →
      ∃ pl, playableCards st l = some pl := by
  intro l
  induction l with
  | nil => exact fun _ => ⟨[], rfl⟩
  | cons c rest ih =>
    intro h
    obtain ⟨b, hb⟩ := Option.isSome_iff_exists.mp
      (is_card_playable_isSome c st (h c (List.mem_cons_self c rest)) htop hhand)
    obtain ⟨pl, hpl⟩ := ih (fun x hx => h x (List.mem_cons_of_mem c hx))
    refine ⟨if b then c :: pl else pl, ?_⟩
    simp [playableCards, hb, hpl]

/-- C10: for every state over the card vocabulary of spec section 3 — its
hand cards parse, and its top card (when present) parses —
`get_legal_actions` returns at least one action: a GET_NEW_CARD action with
unknown card (`card = None`) is appended whenever no hand card is playable
(in particular for an empty hand), so the action list is never empty and
`TreeNode.is_terminal`, which tests its emptiness, answers `false`. -/
theorem c10_legal_actions_nonempty (st : UNOState)
    (hhand : ∀ c ∈ st.hand_cards, (parse_card c).isSome)
    (htop : ∀ t, st.cur_top = some t → (parse_card t).isSome) :
    ∃ l, get_legal_actions st none = some l ∧ l ≠ [] ∧
      (playableCards st st.hand_cards = some [] →
        (⟨ActionType.GET_NEW_CARD, none, none, 0⟩ : UNOAction) ∈ l) ∧
      is_terminal st = some false := by
  obtain ⟨pl, hpl⟩ := playableCards_isSome st htop hhand st.hand_cards hhand
  have hmain : ∃ l, get_legal_actions st none = some l ∧ l ≠ [] ∧
      (playableCards st st.hand_cards = some [] →
        (⟨ActionType.GET_NEW_CARD, none, none, 0⟩ : UNOAction) ∈ l) := by
    unfold get_legal_actions
    rw [hpl]
    simp only [Option.some_bind]
    refine ⟨_, rfl, ?_, ?_⟩
    · cases pl with
      | nil =>
        by_cases hu : st.hand_cards.length = 1 ∧ st.uno = false
        · simp [hu]
        · simp [hu]
      | cons p ps =>
        by_cases hu : st.hand_cards.length = 1 ∧ st.uno = false
        · simp [hu]
        · simp [hu]
    · intro hplnil
      have hpl0 : pl = [] := Option.some_inj.mp hplnil
      subst hpl0
      by_cases hu : st.hand_cards.length = 1 ∧ st.uno = false
      · simp [hu]
      · simp [hu]
  obtain ⟨l, hl, hne, hdraw⟩ := hmain
  refine ⟨l, hl, hne, hdraw, ?_⟩
  unfold is_terminal
  rw [hl]
  simp [List.length_eq_zero, hne]

/-- C10, witness: at the concrete scenario state the legal-action list is
returned, non-empty, and the state is not terminal. -/
theorem c10_legal_actions_nonempty_witness :
    ∃ l, get_legal_actions exampleState none = some l ∧ l ≠ [] ∧
      (playableCards exampleState exampleState.hand_cards = some [] →
        (⟨ActionType.GET_NEW_CARD, none, none, 0⟩ : UNOAction) ∈ l) ∧
      is_terminal exampleState = some false := by
  apply c10_legal_actions_nonempty exampleState (by decide)
  intro t ht
  have ht2 : (some "Blue-5" : Option String) = some t := ht
  rw [← Option.some_inj.mp ht2]
  decide

/-- C9: however the state, the sampled opponent hand, the opponent index and
the random draws are chosen, whenever `_simulate_opponent_turn_with_belief`
returns, the returned state's `hand_cards` equal the input state's
`hand_cards`: the sampled hypothesis never leaks into the agent's true hand,
in the play-card branch (also across the wild-card color choice) and in the
draw branch. -/
theorem c9_no_hand_leak (playRoll : Bool) (pickIdx colorIdx ci ti : Nat)
    (state : UNOState) (opponent_hand : List String) (opponent_idx : Nat)
    (res : UNOState × Option String × UNOAction)
    (h : _simulate_opponent_turn_with_belief playRoll pickIdx colorIdx ci ti state
      opponent_hand opponent_idx = some res) :
    res.1.hand_cards = state.hand_cards := by
  simp only [_simulate_opponent_turn_with_belief, Option.pure_def,
    Option.bind_eq_bind, Option.bind_eq_some] at h
  obtain ⟨playable, hp, h⟩ := h
  by_cases hc : playable ≠ [] ∧ playRoll
  · rw [if_pos hc] at h
    rw [Option.bind_eq_some] at h
    obtain ⟨new1, h1, h⟩ := h
    rw [Option.bind_eq_some] at h
    obtain ⟨pc, h2, h⟩ := h
    by_cases hw : pc.1 = "Wild"
    · rw [if_pos hw] at h
      rw [Option.bind_eq_some] at h
      obtain ⟨s, hs, h⟩ := h
      rw [Option.bind_eq_some] at h
      obtain ⟨y, hy, h⟩ := h
      obtain rfl : _ = y := Option.some_inj.mp hy
      obtain rfl : _ = res := Option.some_inj.mp h
      rfl
    · rw [if_neg hw] at h
      rw [Option.bind_eq_some] at h
      obtain ⟨y, hy, h⟩ := h
      obtain rfl : _ = y := Option.some_inj.mp hy
      obtain rfl : _ = res := Option.some_inj.mp h
      rfl
  · rw [if_neg hc] at h
    rw [Option.bind_eq_some] at h
    obtain ⟨new1, h1, h⟩ := h
    obtain rfl : _ = res := Option.some_inj.mp h
    rfl

/-- C9, witness: with an empty sampled opponent hand the draw branch fires
at the concrete scenario state, and the returned state keeps the agent's
hand. -/
theorem c9_no_hand_leak_witness :
    ({ exampleState with opponents_cards_num := [8, 7, 7] } : UNOState).hand_cards
      = exampleState.hand_cards := by
  apply c9_no_hand_leak true 0 0 0 0 exampleState [] 0
    ({ exampleState with opponents_cards_num := [8, 7, 7] }, none,
      ⟨ActionType.GET_NEW_CARD, some "Blue-0", none, 0⟩)
  decide

/-- `removePlayedHands` keeps the particle's number of hands. -/
lemma removePlayedHands_length (played : Option String) (idx : Nat) :
    ∀ (k : Nat) (l : List (List String)),
      (removePlayedHands played idx k l).length = l.length := by
  intro k l
  induction l generalizing k with
  | nil => rfl
  | cons hand rest ih => simp [removePlayedHands, ih]

/-- Entry `j` of `removePlayedHands played idx k l`: filtered when the
running index `k + j` hits `idx`, untouched otherwise. -/
lemma removePlayedHands_getD (played : Option String) (idx : Nat) :
    ∀ (k j : Nat) (l : List (List String)), j < l.length →
      (removePlayedHands played idx k l).getD j [] =
        if k + j = idx then (l.getD j []).filter (fun c => !(some c == played))
        else l.getD j [] := by
  intro k j l
  induction l generalizing k j with
  | nil => intro hj; simp at hj
  | cons hand rest ih =>
    intro hj
    cases j with
    | zero =>
      simp [removePlayedHands]
    | succ j =>
      simp only [removePlayedHands, List.getD_cons_succ]
      rw [ih (k + 1) j (by simpa using hj)]
      rw [Nat.add_assoc, Nat.add_comm 1 j]

/-- C3 (amended): for every non-empty particle list and every observation
whose action is a card play (V_CARD) by an opponent (action_player > 0),
the filter stage of `update_belief_state` removes every particle in which
that opponent's hypothesized hand lacks the played card; in each surviving
particle EVERY instance of the played card is removed from that opponent's
hand (zero copies remain — one fewer only when the hand held a single copy)
with all other opponents' hands unchanged; and when at least 30% of the
input count survives, `update_belief_state` returns exactly these updated
survivors. -/
theorem c3_filter_and_removal (ps : List (List (List String)))
    (obs : UNOObservation) (opponents_cards_num : List Nat)
    (pick : Nat → Nat) (shuffle : Nat → List String → List String)
    (cand : Nat → Nat → Nat) (padFuel : Nat) (player_0_hand : List String)
    (played : String)
    (hps : ps ≠ [])
    (hact : obs.action_taken.type = ActionType.V_CARD)
    (hcard : obs.action_taken.card = some played)
    (hopp : 0 < obs.action_player) :
    (∀ p ∈ ps, (obs.action_player - 1).toNat < p.length →
      played ∉ p.getD (obs.action_player - 1).toNat [] →
      p ∉ ps.filter (particleValid obs opponents_cards_num)) ∧
    (survivingParticles obs opponents_cards_num ps =
      (ps.filter (particleValid obs opponents_cards_num)).map
        (removePlayedHands obs.action_taken.card (obs.action_player - 1).toNat 0)) ∧
    (∀ p ∈ ps.filter (particleValid obs opponents_cards_num),
      (removePlayedHands obs.action_taken.card (obs.action_player - 1).toNat 0 p).length
          = p.length ∧
      (∀ j, j < p.length →
        (removePlayedHands obs.action_taken.card (obs.action_player - 1).toNat 0 p).getD j []
          = if j = (obs.action_player - 1).toNat then
              (p.getD j []).filter (fun c => !(some c == obs.action_taken.card))
            else p.getD j []) ∧
      ((obs.action_player - 1).toNat < p.length →
        played ∉ (removePlayedHands obs.action_taken.card (obs.action_player - 1).toNat 0
            p).getD (obs.action_player - 1).toNat [])) ∧
    (¬ ((survivingParticles obs opponents_cards_num ps).length * 10 < ps.length * 3) →
      update_belief_state pick shuffle cand padFuel ps obs player_0_hand
        opponents_cards_num = survivingParticles obs opponents_cards_num ps) := by
  refine ⟨?_, ?_, ?_, ?_⟩
  · intro p hp hidx hnot hmem
    have hv := (List.mem_filter.mp hmem).2
    unfold particleValid at hv
    rw [Bool.and_eq_true] at hv
    have hv2 := hv.2
    rw [if_pos ⟨hact, hopp⟩] at hv2
    dsimp only at hv2
    rw [if_pos hidx, hcard] at hv2
    exact hnot (of_decide_eq_true hv2)
  · unfold survivingParticles
    rw [if_pos ⟨hact, hopp⟩]
  · intro p hp
    refine ⟨removePlayedHands_length _ _ 0 p, ?_, ?_⟩
    · intro j hj
      rw [removePlayedHands_getD _ _ 0 j p hj]
      simp
    · intro hidx
      rw [removePlayedHands_getD _ _ 0 _ p hidx]
      simp only [Nat.zero_add, if_pos rfl]
      intro hmem
      have := (List.mem_filter.mp hmem).2
      rw [hcard] at this
      simp at this
  · intro hth
    unfold update_belief_state
    rw [if_neg hps]
    rw [if_neg hth]

/-- C3, witness: two particles, opponent 0 plays Blue-7; the particle
without Blue-7 dies, the surviving particle loses its Blue-7, the other
opponent's hand stays, and 50% survival means no resampling. -/
theorem c3_filter_and_removal_witness :
    update_belief_state (fun _ => 0) (fun _ d => d) (fun _ _ => 0) 0
        [[["Blue-7"], ["Red-2"]], [["Green-3"], ["Red-2"]]] playBlue7Obs [] [1, 1]
      = [[[], ["Red-2"]]] := by
  have h := c3_filter_and_removal
    [[["Blue-7"], ["Red-2"]], [["Green-3"], ["Red-2"]]] playBlue7Obs [1, 1]
    (fun _ => 0) (fun _ d => d) (fun _ _ => 0) 0 [] "Blue-7"
    (by decide) (by decide) (by decide) (by decide)
  rw [h.2.2.2 (by decide)]
  decide

/-- Each call of `initialize_belief_particles` yields exactly
`num_particles` particles, whatever the deck contents turn out to be. -/
lemma initialize_belief_particles_length (shuffle : Nat → List String → List String)
    (cand : Nat → Nat → Nat) (padFuel : Nat) (player_0_hand : List String)
    (opponents_cards_num : List Nat) (observed_discard_cards : List String)
    (num_particles : Nat) :
    (initialize_belief_particles shuffle cand padFuel player_0_hand
      opponents_cards_num observed_discard_cards num_particles).length = num_particles := by
  simp [initialize_belief_particles]

/-- C8: on a non-empty input, whenever fewer than 30% of the particles
survive the filter stage (Python's `len(updated) < len(current) * 0.3` float
test coincides with `10*len(updated) < 3*len(current)`),
`update_belief_state` resamples with replacement back to exactly the input
count when at least one particle survives, and reinitializes from scratch at
the input count — from the current hand, the current sizes and the
observed-discard history — when none does; in every case the returned count
is at least 30% of the input count. -/
theorem c8_belief_size_preservation (pick : Nat → Nat)
    (shuffle : Nat → List String → List String) (cand : Nat → Nat → Nat)
    (padFuel : Nat) (ps : List (List (List String))) (obs : UNOObservation)
    (player_0_hand : List String) (opponents_cards_num : List Nat)
    (hps : ps ≠ []) :
    ((survivingParticles obs opponents_cards_num ps).length * 10 < ps.length * 3 →
      survivingParticles obs opponents_cards_num ps ≠ [] →
      (update_belief_state pick shuffle cand padFuel ps obs player_0_hand
        opponents_cards_num).length = ps.length) ∧
    ((survivingParticles obs opponents_cards_num ps).length * 10 < ps.length * 3 →
      survivingParticles obs opponents_cards_num ps = [] →
      update_belief_state pick shuffle cand padFuel ps obs player_0_hand
          opponents_cards_num
        = initialize_belief_particles shuffle cand padFuel player_0_hand
            opponents_cards_num obs.observed_discard_cards ps.length) ∧
    ps.length * 3 ≤ (update_belief_state pick shuffle cand padFuel ps obs
        player_0_hand opponents_cards_num).length * 10 := by
  refine ⟨?_, ?_, ?_⟩
  · intro hth hne
    unfold update_belief_state
    rw [if_neg hps, if_pos hth, if_pos hne]
    simp
  · intro hth he
    unfold update_belief_state
    rw [if_neg hps, if_pos hth, if_neg (by simpa using he)]
  · by_cases hth : (survivingParticles obs opponents_cards_num ps).length * 10
        < ps.length * 3
    · by_cases hne : survivingParticles obs opponents_cards_num ps ≠ []
      · unfold update_belief_state
        rw [if_neg hps, if_pos hth, if_pos hne]
        simp only [List.length_map, List.length_range]
        exact Nat.mul_le_mul_left ps.length (by norm_num)
      · unfold update_belief_state
        rw [if_neg hps, if_pos hth, if_neg hne]
        rw [initialize_belief_particles_length]
        exact Nat.mul_le_mul_left ps.length (by norm_num)
    · unfold update_belief_state
      rw [if_neg hps, if_neg hth]
      exact Nat.le_of_not_lt hth

/-- The C8 witness input: four one-opponent particles, of which only the
first survives the observation that opponent 0 played Blue-7. -/
def c8WitnessParticles : List (List (List String)) :=
  [[["Blue-7"]], [["Red-2"]], [["Red-2"]], [["Red-2"]]]

/-- C8, witness: one survivor out of four is below 30%, so the update
resamples back to the input count of four. -/
theorem c8_belief_size_preservation_witness :
    (update_belief_state (fun _ => 0) (fun _ d => d) (fun _ _ => 0) 0
        c8WitnessParticles playBlue7Obs [] [1]).length
      = c8WitnessParticles.length := by
  exact (c8_belief_size_preservation (fun _ => 0) (fun _ d => d) (fun _ _ => 0) 0
    c8WitnessParticles playBlue7Obs [] [1] (by decide)).1 (by decide) (by decide)


/-- Every child's visit count is bounded by `maxVisits`. -/
lemma le_maxVisits_of_mem : ∀ {cs : List Tree} {c : Tree}, c ∈ cs → c.visits ≤ maxVisits cs := by
  intro cs
  induction cs with
  | nil => intro c h; cases h
  | cons a rest ih =>
    intro c h
    rcases List.mem_cons.mp h with rfl | h'
    · exact le_max_left _ _
    · exact le_trans (ih h') (le_max_right _ _)

/-- A non-empty child list attains its `maxVisits`. -/
lemma maxVisits_attained : ∀ {cs : List Tree}, cs ≠ [] → ∃ c ∈ cs, c.visits = maxVisits cs := by
  intro cs
  induction cs with
  | nil => intro h; exact absurd rfl h
  | cons a rest ih =>
    intro _
    by_cases hr : rest = []
    · subst hr
      exact ⟨a, List.mem_cons_self a [], by simp [maxVisits]⟩
    · obtain ⟨c, hc, hcv⟩ := ih hr
      by_cases hle : maxVisits rest ≤ a.visits
      · exact ⟨a, List.mem_cons_self a rest, (max_eq_left hle).symm⟩
      · refine ⟨c, List.mem_cons_of_mem a hc, ?_⟩
        rw [hcv]
        exact (max_eq_right (le_of_not_le hle)).symm

/-- Once the incumbent dominates every remaining child, the closing loop of
`MCTS.search` keeps it. -/
lemma search_best_loop_keep (b : Tree) :
    ∀ (cs : List Tree) (v : Int), (∀ c ∈ cs, (c.visits : Int) ≤ v) →
      search_best_loop v (some b) cs = some b := by
  intro cs
  induction cs with
  | nil => intro v _; rfl
  | cons a rest ih =>
    intro v h
    simp only [search_best_loop]
    rw [if_neg (not_lt_of_le (h a (List.mem_cons_self a rest)))]
    exact ih v (fun c hc => h c (List.mem_cons_of_mem a hc))

/-- The closing loop of `MCTS.search` returns the first child attaining the
maximal visit count, as soon as some child strictly beats the incumbent
value. -/
lemma search_best_loop_max :
    ∀ (cs : List Tree) (v : Int) (b : Option Tree),
      (∃ c ∈ cs, v < (c.visits : Int)) →
      search_best_loop v b cs
        = cs.find? (fun c => decide (maxVisits cs ≤ c.visits)) := by
  intro cs
  induction cs with
  | nil => intro v b hex; simp at hex
  | cons a rest ih =>
    intro v b hex
    by_cases hm : maxVisits rest ≤ a.visits
    · have hmax : maxVisits (a :: rest) = a.visits := max_eq_left hm
      rw [List.find?_cons_of_pos rest (by rw [hmax]; simp)]
      have hva : v < (a.visits : Int) := by
        obtain ⟨c, hc, hvc⟩ := hex
        rcases List.mem_cons.mp hc with rfl | hc'
        · exact hvc
        · exact lt_of_lt_of_le hvc
            (by exact_mod_cast le_trans (le_maxVisits_of_mem hc') hm)
      simp only [search_best_loop]
      rw [if_pos hva]
      exact search_best_loop_keep a rest (a.visits : Int)
        (fun c hc => by exact_mod_cast le_trans (le_maxVisits_of_mem hc) hm)
    · have hlt : a.visits < maxVisits rest := lt_of_not_le hm
      have hmax : maxVisits (a :: rest) = maxVisits rest :=
        max_eq_right (le_of_lt hlt)
      rw [List.find?_cons_of_neg rest (by rw [hmax]; simp [Nat.not_le.mpr hlt])]
      have hrest_ne : rest ≠ [] := by
        rintro rfl
        simp [maxVisits] at hlt
      obtain ⟨m, hm_mem, hm_eq⟩ := maxVisits_attained hrest_ne
      simp only [hmax]
      simp only [search_best_loop]
      by_cases hv : v < (a.visits : Int)
      · rw [if_pos hv]
        refine ih (a.visits : Int) (some a) ⟨m, hm_mem, ?_⟩
        exact_mod_cast hm_eq ▸ hlt
      · rw [if_neg hv]
        apply ih
        obtain ⟨c, hc, hvc⟩ := hex
        rcases List.mem_cons.mp hc with rfl | hc'
        · exact absurd hvc hv
        · exact ⟨c, hc', hvc⟩

/-- C4: after its simulations, `MCTS.search` returns the action of the root
child with the most visits — not the highest average score — with ties
resolved in favor of the first-encountered child (the loop starts at
`best_visits = -1` and replaces the incumbent only on strictly more visits);
when the root has no children it returns `none` rather than raising. -/
theorem c4_search_returns_most_visited (root_children : List Tree) :
    search_result root_children
      = (root_children.find?
          (fun c => decide (maxVisits root_children ≤ c.visits))).bind Tree.action ∧
    (root_children = [] → search_result root_children = none) := by
  constructor
  · unfold search_result
    cases hcs : root_children with
    | nil => rfl
    | cons a rest =>
      rw [search_best_loop_max (a :: rest) (-1) none
        ⟨a, List.mem_cons_self a rest,
          lt_of_lt_of_le (by norm_num) (Int.natCast_nonneg a.visits)⟩]
      cases List.find? (fun c => decide (maxVisits (a :: rest) ≤ c.visits)) (a :: rest) with
      | none => rfl
      | some best => rfl
  · intro h
    subst h
    rfl

/-- Nothing strictly exceeds the zero-visit score `+inf`. -/
lemma le_ucb_top (x : WithBot (WithTop ℚ)) :
    x ≤ ((⊤ : WithTop ℚ) : WithBot (WithTop ℚ)) := by
  cases x with
  | bot => exact bot_le
  | coe q => exact WithBot.coe_le_coe.mpr le_top

/-- Once the incumbent scores `+inf`, `best_child`'s loop keeps it. -/
lemma best_child_loop_keep (f : Tree → ℚ) (b : Tree) :
    ∀ (cs : List Tree),
      best_child_loop f ((⊤ : WithTop ℚ) : WithBot (WithTop ℚ)) (some b) cs = some b := by
  intro cs
  induction cs with
  | nil => rfl
  | cons c rest ih =>
    simp only [best_child_loop]
    rw [if_neg (not_lt_of_le (le_ucb_top _))]
    exact ih

/-- As long as the incumbent value is below `+inf` and some child has zero
visits, `best_child`'s loop lands on the first zero-visit child. -/
lemma best_child_loop_finds_zero (f : Tree → ℚ) :
    ∀ (cs : List Tree) (v : WithBot (WithTop ℚ)) (b : Option Tree),
      v < ((⊤ : WithTop ℚ) : WithBot (WithTop ℚ)) →
      (∃ c ∈ cs, c.visits = 0) →
      best_child_loop f v b cs = cs.find? (fun c => decide (c.visits = 0)) := by
  intro cs
  induction cs with
  | nil => intro v b _ hex; simp at hex
  | cons c rest ih =>
    intro v b hv hex
    by_cases hz : c.visits = 0
    · have hs : ucb_score f c = ((⊤ : WithTop ℚ) : WithBot (WithTop ℚ)) := by
        simp [ucb_score, hz]
      rw [List.find?_cons_of_pos rest (by simp [hz])]
      simp only [best_child_loop]
      rw [hs, if_pos hv]
      exact best_child_loop_keep f c rest
    · have hex' : ∃ x ∈ rest, x.visits = 0 := by
        obtain ⟨x, hx, hx0⟩ := hex
        rcases List.mem_cons.mp hx with rfl | hx'
        · exact absurd hx0 hz
        · exact ⟨x, hx', hx0⟩
      have hsc : ucb_score f c < ((⊤ : WithTop ℚ) : WithBot (WithTop ℚ)) := by
        simp only [ucb_score, if_neg hz]
        exact WithBot.coe_lt_coe.mpr (WithTop.coe_lt_top (f c))
      rw [List.find?_cons_of_neg rest (by simp [hz])]
      simp only [best_child_loop]
      by_cases hvc : v < ucb_score f c
      · rw [if_pos hvc]
        exact ih (ucb_score f c) (some c) hsc hex'
      · rw [if_neg hvc]
        exact ih v b hv hex'

/-- C5: for every tree node with at least one visit that has a zero-visit
child, `best_child` returns a zero-visit child — the first-encountered one,
since a zero-visit child scores `+inf`, no finite UCB1 value (whatever the
accumulated scores make it) strictly exceeds `+inf`, and the strict
comparison keeps the earlier child on ties. -/
theorem c5_best_child_zero_visits_first (f : Tree → ℚ) (t : Tree)
    (hvisits : 1 ≤ t.visits) (hz : ∃ c ∈ t.children, c.visits = 0) :
    best_child f t = t.children.find? (fun c => decide (c.visits = 0)) ∧
    ∃ c, best_child f t = some c ∧ c.visits = 0 := by
  have h1 : best_child f t = t.children.find? (fun c => decide (c.visits = 0)) := by
    unfold best_child
    exact best_child_loop_finds_zero f t.children ⊥ none (WithBot.bot_lt_coe _) hz
  refine ⟨h1, ?_⟩
  have hsome : (t.children.find? (fun c => decide (c.visits = 0))).isSome := by
    rw [List.find?_isSome]
    obtain ⟨c, hc, hc0⟩ := hz
    exact ⟨c, hc, by simp [hc0]⟩
  obtain ⟨d, hd⟩ := Option.isSome_iff_exists.mp hsome
  refine ⟨d, h1.trans hd, ?_⟩
  have := List.find?_some hd
  simpa using this

/-- The C5 witness node: one visit at the parent, a single fresh child. -/
def c5WitnessNode : Tree :=
  Tree.node exampleState none 1 0
    [Tree.node exampleState (some ⟨ActionType.V_CARD, some "Blue-7", none, 0⟩) 0 0 []]

/-- C5, witness: at the concrete one-child node the zero-visit child is
selected. -/
theorem c5_best_child_zero_visits_first_witness :
    ∃ c, best_child (fun _ => 0) c5WitnessNode = some c ∧ c.visits = 0 :=
  (c5_best_child_zero_visits_first (fun _ => 0) c5WitnessNode (by decide)
    ⟨Tree.node exampleState (some ⟨ActionType.V_CARD, some "Blue-7", none, 0⟩) 0 0 [],
      by simp [c5WitnessNode, Tree.children], rfl⟩).2


/-- Backpropagation adds exactly one visit to the node it starts from. -/
lemma backpropagate_visits (gamma reward : ℚ) :
    ∀ (p : List Nat) (t : Tree), (backpropagate gamma reward p t).visits = t.visits + 1 := by
  intro p t
  cases p <;> cases t <;> rfl

/-- Expansion never changes a node's own visit count. -/
lemma expandAt_visits (st : UNOState) (a : UNOAction) :
    ∀ (p : List Nat) (t : Tree), (expandAt st a p t).visits = t.visits := by
  intro p t
  cases p <;> cases t <;> rfl

/-- A visit-preserving update at one index preserves the visit sum. -/
lemma modifyAt_map_sum_eq {f : Tree → Tree} (hf : ∀ x, (f x).visits = x.visits) :
    ∀ (i : Nat) (cs : List Tree),
      ((modifyAt f i cs).map Tree.visits).sum = (cs.map Tree.visits).sum := by
  intro i cs
  induction cs generalizing i with
  | nil => cases i <;> rfl
  | cons a rest ih =>
    cases i with
    | zero => simp [modifyAt, hf]
    | succ n => simp [modifyAt, ih n]

/-- An in-range update adding one visit adds one to the visit sum. -/
lemma modifyAt_map_sum_succ {f : Tree → Tree} (hf : ∀ x, (f x).visits = x.visits + 1) :
    ∀ (i : Nat) (cs : List Tree), i < cs.length →
      ((modifyAt f i cs).map Tree.visits).sum = (cs.map Tree.visits).sum + 1 := by
  intro i cs
  induction cs generalizing i with
  | nil => intro h; simp at h
  | cons a rest ih =>
    intro hi
    cases i with
    | zero =>
      simp [modifyAt, hf]
      omega
    | succ n =>
      simp only [modifyAt, List.map_cons, List.sum_cons]
      rw [ih n (by simpa using hi)]
      omega

/-- Backpropagating along a valid path adds one to the sum of the root's
children's visits exactly when the path leaves the root. -/
lemma rootChildVisitSum_backprop (gamma reward : ℚ) :
    ∀ (p : List Nat) (t : Tree), validPath p t = true →
      rootChildVisitSum (backpropagate gamma reward p t)
        = rootChildVisitSum t + (if p = [] then 0 else 1) := by
  intro p t hvp
  cases p with
  | nil =>
    cases t
    simp [backpropagate, rootChildVisitSum, Tree.children]
  | cons i q =>
    cases t with
    | node st a v s cs =>
      have hi : i < cs.length := by
        unfold validPath at hvp
        cases hgs : cs[i]? with
        | none => rw [hgs] at hvp; simp at hvp
        | some c => exact (List.getElem?_eq_some.mp hgs).1
      simp only [backpropagate, rootChildVisitSum, Tree.children]
      rw [modifyAt_map_sum_succ (fun x => backpropagate_visits gamma reward q x) i cs hi]
      simp

/-- Expansion never changes the sum of the root's children's visits: the
fresh child starts at zero visits, and a deeper expansion only touches a
child's subtree. -/
lemma rootChildVisitSum_expand (st : UNOState) (a : UNOAction) :
    ∀ (p : List Nat) (t : Tree),
      rootChildVisitSum (expandAt st a p t) = rootChildVisitSum t := by
  intro p t
  cases p with
  | nil =>
    cases t
    simp [expandAt, rootChildVisitSum, Tree.children, Tree.visits]
  | cons i q =>
    cases t with
    | node st2 a2 v s cs =>
      simp only [expandAt, rootChildVisitSum, Tree.children]
      exact modifyAt_map_sum_eq (fun x => expandAt_visits st a q x) i cs

/-- Also after an optional expansion, a simulation's backpropagation adds
one root-child visit exactly when it left the root. -/
lemma rootChildVisitSum_runSim (gamma : ℚ) (t : Tree) (s : SimStep)
    (h : validPath s.bp_path (afterExpansion t s) = true) :
    rootChildVisitSum (runSim gamma t s)
      = rootChildVisitSum t + (if s.bp_path = [] then 0 else 1) := by
  unfold runSim
  rw [rootChildVisitSum_backprop gamma s.reward s.bp_path (afterExpansion t s) h]
  congr 1
  unfold afterExpansion
  cases hs : s.expansion with
  | none => rfl
  | some pa =>
    obtain ⟨p, st, a⟩ := pa
    exact rootChildVisitSum_expand st a p t

/-- The per-step counts of a simulation trace are split by whether the
backpropagation path is empty. -/
lemma filter_isEmpty_split (steps : List SimStep) :
    (steps.filter (fun s => !s.bp_path.isEmpty)).length
      + (steps.filter (fun s => s.bp_path.isEmpty)).length = steps.length := by
  induction steps with
  | nil => rfl
  | cons s rest ih =>
    cases h : s.bp_path.isEmpty <;> simp [List.filter_cons, h] <;> omega

/-- Running a valid trace of simulations adds to the root-children visit sum
one per simulation whose backpropagation left the root. -/
lemma runSearch_childsum (gamma : ℚ) :
    ∀ (steps : List SimStep) (t : Tree), validRun gamma t steps = true →
      rootChildVisitSum (runSearch gamma t steps)
        = rootChildVisitSum t + (steps.filter (fun s => !s.bp_path.isEmpty)).length := by
  intro steps
  induction steps with
  | nil => intro t _; simp [runSearch]
  | cons s rest ih =>
    intro t hv
    unfold validRun at hv
    rw [Bool.and_eq_true] at hv
    obtain ⟨h1, h2⟩ := hv
    simp only [runSearch]
    rw [ih (runSim gamma t s) h2, rootChildVisitSum_runSim gamma t s h1]
    cases hbp : s.bp_path with
    | nil => simp [List.filter_cons, hbp]
    | cons i q =>
      simp [List.filter_cons, hbp]
      omega

/-- C7: starting from a fresh root (zero visits, no children), after any
valid trace of N simulations — whatever nodes selection reaches, wherever
expansion fires, whatever the rollouts' rewards — the sum of the root's
children's visit counts equals N minus the number of simulations whose
backpropagation path is empty, i.e. that terminated at the root itself; each
simulation that left the root incremented exactly one root child. -/
theorem c7_visit_conservation (gamma : ℚ) (st : UNOState) (steps : List SimStep)
    (h : validRun gamma (Tree.node st none 0 0 []) steps = true) :
    rootChildVisitSum (runSearch gamma (Tree.node st none 0 0 []) steps)
      = steps.length - (steps.filter (fun s => s.bp_path.isEmpty)).length := by
  rw [runSearch_childsum gamma steps _ h]
  have hsplit := filter_isEmpty_split steps
  simp only [rootChildVisitSum, Tree.children, List.map_nil, List.sum_nil, Nat.zero_add]
  omega

/-- The C7 witness trace: one simulation expands a child at the root and
backpropagates through it; a second simulation terminates at the root. -/
def c7WitnessSteps : List SimStep :=
  [⟨some ([], exampleState, ⟨ActionType.V_CARD, some "Blue-7", none, 0⟩), [0], 1⟩,
   ⟨none, [], 0⟩]

/-- C7, witness: two simulations, one of which never left the root, leave
the root's only child with one visit. -/
theorem c7_visit_conservation_witness :
    rootChildVisitSum (runSearch 1 (Tree.node exampleState none 0 0 []) c7WitnessSteps)
      = c7WitnessSteps.length
        - (c7WitnessSteps.filter (fun s => s.bp_path.isEmpty)).length :=
  c7_visit_conservation 1 exampleState c7WitnessSteps (by decide)

end UNO
